import Mathlib

/-!
Verification of the timeline composition and animated-text rendering engine
of the puzzle-video repository (reelgen/reelgen.py with the constants of
reelgen/video_config.py).

The embedding is a shallow one over the rationals: Python float arithmetic on
times and speeds is modelled with exact rational arithmetic (the literal 1e-6
becomes 1/1000000 and so on), machine strings become Lean strings, and the
fallible builders that return None in Python return Option here.  Pixel level
concerns (PIL font metrics, raster images, screen positions) are external
I/O for the engine; wherever the code consults a font they are abstracted as
an explicit measure parameter, and the raster payloads of clips are dropped,
keeping exactly the timing and text data the claims are about.
-/

attribute [local semireducible] Rat.add Rat.mul Rat.inv Rat.sub

namespace Reelgen

/-- Mirror of video_config.py: the style configuration constants consumed by
reelgen.py.  Field names follow the Python constants.  Pixel constants that
only affect raster placement (W, H, LINE_START_Y, ...) are omitted, except
MAX_TEXT_WIDTH_PX which feeds the wrapping logic. -/
structure VideoConfig where
  FPS : ℚ
  CURSOR_CHAR : String
  CURSOR_BLINK_RATE_HZ : ℚ
  TEXT_GLITCH_ENABLED : Bool
  TEXT_GLITCH_SPEED_HZ : ℚ
  TEXT_GLITCH_CHAR_SET : List Char
  PRE_COUNTDOWN_PAUSE_S : ℚ
  COUNTDOWN_SECONDS : ℕ
  REVEAL_TO_EXPLANATION_DELAY_S : ℚ
  EXPLANATION_HOLD_DURATION_S : ℚ
  SIGNOFF_TYPING_SPEED_CPS : ℚ
  SIGNOFF_HOLD_DURATION_S : ℚ
  SIGNOFF_GAP_S : ℚ
  SIGNOFF_LINES : List (String × ℤ)
  TITLE_FONT_SIZE : ℚ
  PUZZLE_LINE_FONT_SIZE : ℚ
  EXPLANATION_FONT_SIZE : ℚ
  TITLE_TYPING_SPEED_CPS : ℚ
  PUZZLE_TYPING_SPEED_CPS : ℚ
  EXPLANATION_TYPING_SPEED_CPS : ℚ
  MAX_TEXT_WIDTH_PX : ℚ
  deriving Repr, DecidableEq

/-- The concrete configuration values of video_config.py. -/
def videoConfig : VideoConfig where
  FPS := 30
  CURSOR_CHAR := "█"
  CURSOR_BLINK_RATE_HZ := 2
  TEXT_GLITCH_ENABLED := true
  TEXT_GLITCH_SPEED_HZ := 3
  TEXT_GLITCH_CHAR_SET := "ABCDEFGHIJKLMNOPQRSTUVWXYZ0123456789".data
  PRE_COUNTDOWN_PAUSE_S := 0
  COUNTDOWN_SECONDS := 5
  REVEAL_TO_EXPLANATION_DELAY_S := 1/2
  EXPLANATION_HOLD_DURATION_S := 3/2
  SIGNOFF_TYPING_SPEED_CPS := 30
  SIGNOFF_HOLD_DURATION_S := 3/2
  SIGNOFF_GAP_S := 1/5
  SIGNOFF_LINES :=
    [("WERE YOU SUCCESSFUL?", 400), ("LIKE TO CONFIRM", 500),
     ("SUBSCRIBE FOR", 1050), ("FURTHER TESTING", 1150)]
  TITLE_FONT_SIZE := 75
  PUZZLE_LINE_FONT_SIZE := 70
  EXPLANATION_FONT_SIZE := 65
  TITLE_TYPING_SPEED_CPS := 3
  PUZZLE_TYPING_SPEED_CPS := 3
  EXPLANATION_TYPING_SPEED_CPS := 30
  MAX_TEXT_WIDTH_PX := 980

/-- Python int(q) for a rational q: truncation toward zero. -/
def pyInt (q : ℚ) : ℤ :=
  if q < 0 then ⌈q⌉ else ⌊q⌋

/-- Truncation toward zero, clamped at zero, as used for list slicing bounds
with nonnegative sample times. -/
def pyNat (q : ℚ) : ℕ :=
  (pyInt q).toNat

/-- Python float modulo a % b for b positive: a - b * floor (a / b). -/
def pyMod (a b : ℚ) : ℚ :=
  a - b * ⌊a / b⌋

/-- Number of printable characters of a text: the length after removing the
line break characters, as in len(text_to_type.replace("\n", "")) at
reelgen.py line 173. -/
def printableCount (text : String) : ℕ :=
  (text.data.filter (fun ch => ch ≠ '\n')).length

/-- The clamped divisor max(speed_cps, 1e-6) of reelgen.py line 174. -/
def typingDivisor (speed : ℚ) : ℚ :=
  max speed (1/1000000)

/-- Duration of a typing animation: total printable characters divided by the
clamped speed (reelgen.py line 174). -/
def typingDuration (text : String) (speed : ℚ) : ℚ :=
  (printableCount text : ℚ) / typingDivisor speed

/-- Timing data of a clip produced by create_typing_animation_clip: the
moviepy clip has with_start(start_delay) and duration as computed above.
The raster payload (canvas, held image, anchor) is pixel data and omitted. -/
structure TypingClip where
  start : ℚ
  duration : ℚ
  deriving Repr, DecidableEq

/-- End time of a clip, clip.end = start + duration in moviepy. -/
def TypingClip.endTime (c : TypingClip) : ℚ :=
  c.start + c.duration

/-- Timing behaviour of create_typing_animation_clip (reelgen.py 152-206):
returns none for empty text (line 157-158), otherwise a clip starting at
start_delay with the typing duration. -/
def createTypingClip (text : String) (startDelay speed : ℚ) : Option TypingClip :=
  if text = "" then none
  else some { start := startDelay, duration := typingDuration text speed }

/-- C10: for every non-empty text and every speed value, including 0, the
divisor max(speed, 1e-6) is strictly positive, the resulting duration is
non-negative, and the builder returns a result rather than failing. -/
theorem typing_divisor_safe (text : String) (speed : ℚ) (h : text ≠ "") :
    0 < typingDivisor speed ∧ 0 ≤ typingDuration text speed ∧
      (createTypingClip text 0 speed).isSome := by
  refine ⟨lt_of_lt_of_le (by norm_num) (le_max_right _ _), ?_, ?_⟩
  · exact div_nonneg (by positivity)
      (le_of_lt (lt_of_lt_of_le (by norm_num) (le_max_right _ _)))
  · simp [createTypingClip, h]

/-- Witness for C10 at text "A" and speed 0. -/
theorem typing_divisor_safe_witness :
    ("A" : String) ≠ "" ∧
      (0 < typingDivisor 0 ∧ 0 ≤ typingDuration "A" 0 ∧
        (createTypingClip "A" 0 0).isSome) :=
  ⟨by decide, typing_divisor_safe "A" 0 (by decide)⟩

/-- C2 counterexample: at the positive speed 1/2000000 (below the 1e-6 clamp)
the duration is not printable count / speed, because the divisor is clamped. -/
theorem typing_duration_clamp_cex :
    typingDuration "A" (1/2000000) ≠ (printableCount "A" : ℚ) / (1/2000000) := by
  decide

/-- C2 (amended): for every non-empty text and every speed at least the clamp
floor 1e-6, the typing duration equals the printable character count divided
by the speed. -/
theorem typing_duration_formula (text : String) (speed : ℚ)
    (_h : text ≠ "") (hs : 1/1000000 ≤ speed) :
    typingDuration text speed = (printableCount text : ℚ) / speed := by
  unfold typingDuration typingDivisor
  rw [max_eq_left hs]

/-- Witness for C2 at text "AB" and speed 2. -/
theorem typing_duration_formula_witness :
    ("AB" : String) ≠ "" ∧ (1/1000000 : ℚ) ≤ 2 ∧
      typingDuration "AB" 2 = (printableCount "AB" : ℚ) / 2 :=
  ⟨by decide, by norm_num, typing_duration_formula "AB" 2 (by decide) (by norm_num)⟩

/-- Characters revealed at sample time t, as in num_chars = int(t * speed_cps)
followed by "".join(flat[:num_chars]) (reelgen.py lines 182-183); python list
slicing caps the count at the text length.  Modelled for nonnegative sample
times, which is how moviepy samples a clip. -/
def revealedText (text : String) (speed t : ℚ) : String :=
  String.mk (text.data.take (pyNat (t * speed)))

/-- Take characters until a given number of printable characters has been
consumed, letting line break characters pass through without being counted. -/
def takePrintable : ℕ → List Char → List Char
  | _, [] => []
  | k, ch :: rest =>
    if ch = '\n' then ch :: takePrintable k rest
    else match k with
      | 0 => []
      | k' + 1 => ch :: takePrintable k' rest

/-- The reveal rule as the spec words it, for comparison with the code: the
first floor(t * speed) printable characters of the text, ignoring line breaks
when counting, capped at the text length. -/
def specRevealedText (text : String) (speed t : ℚ) : String :=
  String.mk (takePrintable (min (pyNat (t * speed)) text.data.length) text.data)

/-- C3 counterexample: with text "a\nb", speed 1 and t = 2 the code reveals
the first two characters of the raw text, "a\n" (one printable character),
not the first two printable characters "a\nb" that the claim describes. -/
theorem reveal_prefix_cex :
    revealedText "a\nb" 1 2 = "a\n" ∧
      revealedText "a\nb" 1 2 ≠ specRevealedText "a\nb" 1 2 := by
  decide

/-- C3 (amended): for every text, nonnegative sample time and positive speed,
the revealed portion is the first min(floor(t * speed), length) characters of
the raw text, line breaks counted like any other character. -/
theorem reveal_prefix_capped (text : String) (speed t : ℚ)
    (_ht : 0 ≤ t) (_hs : 0 < speed) :
    revealedText text speed t
        = String.mk (text.data.take (min (pyNat (t * speed)) text.data.length)) ∧
      (revealedText text speed t).length = min (pyNat (t * speed)) text.length := by
  constructor
  · unfold revealedText
    rcases le_or_lt (pyNat (t * speed)) text.data.length with h | h
    · rw [min_eq_left h]
    · rw [min_eq_right (le_of_lt h), List.take_of_length_le (le_of_lt h),
        List.take_length]
  · unfold revealedText
    exact List.length_take (pyNat (t * speed)) text.data

/-- Witness for C3 at text "ab", speed 1 and t = 1. -/
theorem reveal_prefix_capped_witness :
    (0 : ℚ) ≤ 1 ∧ (0 : ℚ) < 1 ∧
      (revealedText "ab" 1 1
          = String.mk (("ab" : String).data.take (min (pyNat (1 * 1)) ("ab" : String).data.length)) ∧
        (revealedText "ab" 1 1).length = min (pyNat (1 * 1)) ("ab" : String).length) :=
  ⟨by norm_num, by norm_num, reveal_prefix_capped "ab" 1 1 (by norm_num) (by norm_num)⟩

/-- Mutable closure state of make_frame for the glitch effect: the python
nonlocals last_glitch_time (initially -1.0) and last_glitch_string
(initially ""), reelgen.py lines 176-177. -/
structure GlitchState where
  lastGlitchTime : ℚ
  lastGlitchString : String
  deriving Repr, DecidableEq

/-- Initial glitch state of a fresh typing clip. -/
def glitchInit : GlitchState :=
  { lastGlitchTime := -1, lastGlitchString := "" }

/-- One evaluation of the glitch block of make_frame (reelgen.py 186-190) at
sample time t, abstracting the random.choice call as the supplied roll
character.  Returns the updated closure state and the string that the block
appends to the revealed text. -/
def glitchUpdate (cfg : VideoConfig) (duration t : ℚ) (st : GlitchState)
    (roll : Char) : GlitchState × String :=
  if cfg.TEXT_GLITCH_ENABLED ∧ t < duration - 1 / cfg.FPS then
    if 1 / cfg.TEXT_GLITCH_SPEED_HZ ≤ t - st.lastGlitchTime then
      ({ lastGlitchTime := t, lastGlitchString := String.mk [roll] }, String.mk [roll])
    else (st, st.lastGlitchString)
  else (st, "")

/-- Invariant of the glitch state: either untouched, or holding a single
character previously drawn from the configured alphabet. -/
def GlitchInv (cfg : VideoConfig) (st : GlitchState) : Prop :=
  st = glitchInit ∨ ∃ c ∈ cfg.TEXT_GLITCH_CHAR_SET, st.lastGlitchString = String.mk [c]

/-- The rendered text of one make_frame sample (reelgen.py 179-199): the
revealed prefix, the glitch tail and the cursor glyph.  Pixel pasting is
omitted; the result is the updated glitch state and the string handed to the
rasterizer. -/
def makeFrameText (cfg : VideoConfig) (text : String) (speed : ℚ)
    (st : GlitchState) (roll : Char) (t : ℚ) : GlitchState × String :=
  let flat := text.data
  let numChars := pyNat (t * speed)
  let currentText := flat.take numChars
  let duration := typingDuration text speed
  let g := glitchUpdate cfg duration t st roll
  let renderText := currentText ++ g.2.data
  let cursorOnDur := 1 / (cfg.CURSOR_BLINK_RATE_HZ * 2)
  let out :=
    if t < duration ∧ pyMod t (1 / cfg.CURSOR_BLINK_RATE_HZ) < cursorOnDur then
      -- render_text.endswith("\n") is last character equals the line break
      if renderText.getLast? = some '\n' then renderText ++ cfg.CURSOR_CHAR.data
      else if h : numChars < flat.length then
        if flat.get ⟨numChars, h⟩ = '\n' then
          currentText ++ cfg.CURSOR_CHAR.data ++ flat.drop numChars
        else renderText ++ cfg.CURSOR_CHAR.data
      else renderText ++ cfg.CURSOR_CHAR.data
    else renderText
  (g.1, String.mk out)

/-- C4: one step of the glitch effect.  While t is strictly before
duration - 1/fps the appended tail is exactly one character from the
configured alphabet; the character is re-rolled exactly when a full glitch
period 1/rate has elapsed since the last roll and is held unchanged
otherwise; at or after duration - 1/fps nothing is appended and the state is
untouched; the state invariant is preserved. -/
theorem glitch_step_spec (cfg : VideoConfig) (duration t : ℚ) (st : GlitchState)
    (roll : Char) (hen : cfg.TEXT_GLITCH_ENABLED = true) (ht : 0 ≤ t)
    (hhz : 1 ≤ cfg.TEXT_GLITCH_SPEED_HZ)
    (hroll : roll ∈ cfg.TEXT_GLITCH_CHAR_SET) (hinv : GlitchInv cfg st) :
    (t < duration - 1 / cfg.FPS →
        ((glitchUpdate cfg duration t st roll).2.length = 1 ∧
          ∀ c ∈ (glitchUpdate cfg duration t st roll).2.data,
            c ∈ cfg.TEXT_GLITCH_CHAR_SET) ∧
        (1 / cfg.TEXT_GLITCH_SPEED_HZ ≤ t - st.lastGlitchTime →
          glitchUpdate cfg duration t st roll
            = ({ lastGlitchTime := t, lastGlitchString := String.mk [roll] },
                String.mk [roll])) ∧
        (t - st.lastGlitchTime < 1 / cfg.TEXT_GLITCH_SPEED_HZ →
          glitchUpdate cfg duration t st roll = (st, st.lastGlitchString))) ∧
    (duration - 1 / cfg.FPS ≤ t →
      glitchUpdate cfg duration t st roll = (st, "")) ∧
    GlitchInv cfg (glitchUpdate cfg duration t st roll).1 := by
  have hzpos : (0 : ℚ) < cfg.TEXT_GLITCH_SPEED_HZ := lt_of_lt_of_le one_pos hhz
  have hper : 1 / cfg.TEXT_GLITCH_SPEED_HZ ≤ 1 := by
    rw [div_le_one hzpos]; exact hhz
  unfold glitchUpdate
  by_cases hwin : t < duration - 1 / cfg.FPS
  · have hcond : (cfg.TEXT_GLITCH_ENABLED = true) ∧ t < duration - 1 / cfg.FPS :=
      ⟨hen, hwin⟩
    rw [if_pos hcond]
    by_cases hel : 1 / cfg.TEXT_GLITCH_SPEED_HZ ≤ t - st.lastGlitchTime
    · rw [if_pos hel]
      refine ⟨fun _ => ⟨⟨by simp, ?_⟩, fun _ => rfl,
        fun hlt => absurd hel (not_le.mpr hlt)⟩,
        fun hge => absurd hwin (not_lt.mpr hge), Or.inr ⟨roll, hroll, rfl⟩⟩
      intro c hc
      simp only [String.mk, List.mem_singleton] at hc
      exact hc ▸ hroll
    · rw [if_neg hel]
      rcases hinv with hi | ⟨c, hcmem, hcstr⟩
      · exfalso
        apply hel
        rw [hi]
        show 1 / cfg.TEXT_GLITCH_SPEED_HZ ≤ t - glitchInit.lastGlitchTime
        have hrw : t - glitchInit.lastGlitchTime = t + 1 := by
          simp only [glitchInit]; ring
        rw [hrw]
        calc 1 / cfg.TEXT_GLITCH_SPEED_HZ ≤ 1 := hper
        _ ≤ t + 1 := by linarith
      · refine ⟨fun _ => ⟨⟨by rw [hcstr]; simp, ?_⟩,
          fun hge => absurd hge hel, fun _ => rfl⟩,
          fun hge => absurd hwin (not_lt.mpr hge), Or.inr ⟨c, hcmem, hcstr⟩⟩
        intro d hd
        rw [hcstr] at hd
        simp only [String.mk, List.mem_singleton] at hd
        exact hd ▸ hcmem
  · have hcond : ¬ ((cfg.TEXT_GLITCH_ENABLED = true) ∧ t < duration - 1 / cfg.FPS) :=
      fun hc => hwin hc.2
    rw [if_neg hcond]
    exact ⟨fun hlt => absurd hlt hwin, fun _ => rfl, hinv⟩

/-- Witness for C4 at the repository configuration, duration 5, t = 0, the
initial state and roll character A. -/
theorem glitch_step_spec_witness :
    videoConfig.TEXT_GLITCH_ENABLED = true ∧ (0 : ℚ) ≤ 0 ∧
      1 ≤ videoConfig.TEXT_GLITCH_SPEED_HZ ∧
      'A' ∈ videoConfig.TEXT_GLITCH_CHAR_SET ∧ GlitchInv videoConfig glitchInit ∧
      ((0 < (5 : ℚ) - 1 / videoConfig.FPS →
          ((glitchUpdate videoConfig 5 0 glitchInit 'A').2.length = 1 ∧
            ∀ c ∈ (glitchUpdate videoConfig 5 0 glitchInit 'A').2.data,
              c ∈ videoConfig.TEXT_GLITCH_CHAR_SET) ∧
          (1 / videoConfig.TEXT_GLITCH_SPEED_HZ ≤ 0 - glitchInit.lastGlitchTime →
            glitchUpdate videoConfig 5 0 glitchInit 'A'
              = ({ lastGlitchTime := 0, lastGlitchString := String.mk ['A'] },
                  String.mk ['A'])) ∧
          (0 - glitchInit.lastGlitchTime < 1 / videoConfig.TEXT_GLITCH_SPEED_HZ →
            glitchUpdate videoConfig 5 0 glitchInit 'A' = (glitchInit, glitchInit.lastGlitchString))) ∧
        ((5 : ℚ) - 1 / videoConfig.FPS ≤ 0 →
          glitchUpdate videoConfig 5 0 glitchInit 'A' = (glitchInit, "")) ∧
        GlitchInv videoConfig (glitchUpdate videoConfig 5 0 glitchInit 'A').1) :=
  ⟨rfl, le_refl 0, by norm_num [videoConfig], by decide, Or.inl rfl,
    glitch_step_spec videoConfig 5 0 glitchInit 'A' rfl (le_refl 0)
      (by norm_num [videoConfig]) (by decide) (Or.inl rfl)⟩

/-- C5: evaluation of make_frame at the failing input.  With text "ab\ncd",
speed 1 and t = 2 the next unrevealed character is a line break and the
cursor blink is on, and the code renders "ab█\ncd": the cursor sits at the
end of the current line, before the break, and the entire untyped remainder
"cd" is made visible (the glitch tail is also discarded).  The claim instead
requires the cursor to appear at the start of the next line with only the
revealed text and the cursor visible. -/
theorem cursor_newline_render_eval :
    (makeFrameText videoConfig "ab\ncd" 1 glitchInit 'X' 2).2 = "ab█\ncd" := by
  decide

/-- Whitespace test covering the whitespace characters that occur in this
pipeline. -/
def pyIsSpace (ch : Char) : Bool :=
  ch = ' ' || ch = '\t' || ch = '\n' || ch = '\r'

/-- Split a text into maximal runs of whitespace and non-whitespace
characters: the chunk stream python textwrap produces for inputs without
hyphens.  The wrapper at reelgen.py line 104 is built with
replace_whitespace=False, so no preprocessing happens before chunking. -/
def chunkRuns : List Char → List (List Char)
  | [] => []
  | ch :: rest =>
    match chunkRuns rest with
    | [] => [[ch]]
    | r :: rs =>
      match r with
      | [] => [ch] :: rs
      | d :: _ => if pyIsSpace ch = pyIsSpace d then (ch :: r) :: rs else [ch] :: r :: rs

/-- Inner fill of textwrap._wrap_chunks: move whole chunks onto the current
line while the line stays within the width budget. -/
def fillLine (width : ℕ) (acc : List (List Char)) :
    List (List Char) → List (List Char) × List (List Char)
  | [] => (acc, [])
  | c :: rest =>
    if acc.flatten.length + c.length ≤ width then fillLine width (acc ++ [c]) rest
    else (acc, c :: rest)

/-- textwrap._handle_long_word with break_long_words=True as configured at
reelgen.py line 104: when the next chunk is longer than the width, break off
exactly the room left on the current line (one character when the width
itself is below one). -/
def longWordAdjust (width : ℕ) (cur : List (List Char)) :
    List (List Char) → List (List Char) × List (List Char)
  | [] => (cur, [])
  | c :: r =>
    if width < c.length then
      let spaceLeft := if width < 1 then 1 else width - cur.flatten.length
      (cur ++ [c.take spaceLeft], c.drop spaceLeft :: r)
    else (cur, c :: r)

/-- Drop of a trailing whitespace chunk on a finished line, textwrap default
drop_whitespace=True. -/
def dropTrailingWs (cur : List (List Char)) : List (List Char) :=
  match cur.getLast? with
  | some lastChunk => if lastChunk.all pyIsSpace then cur.dropLast else cur
  | none => cur

/-- Outer loop of textwrap._wrap_chunks, fuel-driven: each iteration drops a
leading whitespace chunk (on every line but the first), fills the current
line, breaks an over-long head chunk, drops trailing whitespace and emits the
finished line.  Every iteration consumes at least one character or one chunk,
so the fuel supplied by textwrapWrap dominates the iteration count. -/
def wrapOuter (width : ℕ) : ℕ → List (List Char) → List (List Char) → List (List Char)
  | 0, _, lines => lines.reverse
  | _ + 1, [], lines => lines.reverse
  | fuel + 1, c0 :: rest0, lines =>
    let chunks1 := if c0.all pyIsSpace && !lines.isEmpty then rest0 else c0 :: rest0
    let p := fillLine width [] chunks1
    let q := longWordAdjust width p.1 p.2
    let cur := dropTrailingWs q.1
    let lines' := if cur.isEmpty then lines else cur.flatten :: lines
    wrapOuter width fuel q.2 lines'

/-- Model of python textwrap.TextWrapper(width, break_long_words=True,
replace_whitespace=False).wrap(txt), for texts whose whitespace consists of
blanks and which contain no hyphens, as the repository feeds it. -/
def textwrapWrap (width : ℕ) (txt : String) : List String :=
  (wrapOuter width (txt.data.length + (chunkRuns txt.data).length + 1)
    (chunkRuns txt.data) []).map String.mk

/-- The character column estimated by _wrap_to_width (reelgen.py 102-103):
avg_char = _text_length(fnt, "a") or font_size * 0.5, then
width_chars = max(1, int(max_width / max(avg_char, 1))). -/
def wrapWidthChars (measure : String → ℚ) (fontSize maxWidth : ℚ) : ℕ :=
  max 1 (pyInt (maxWidth /
    max (if measure "a" = 0 then fontSize * (1/2) else measure "a") 1)).toNat

/-- Lines produced by _wrap_to_width (reelgen.py 98-105): the text itself
when it already fits, otherwise the textwrap result at the estimated
character column.  The font is abstracted as the measure argument, the pixel
width that _text_length assigns to a string under the loaded font. -/
def wrapToWidthLines (measure : String → ℚ) (fontSize maxWidth : ℚ)
    (txt : String) : List String :=
  if measure txt ≤ maxWidth then [txt]
  else textwrapWrap (wrapWidthChars measure fontSize maxWidth) txt

/-- The wrapped text returned by _wrap_to_width: the original text when it
fits, otherwise "\n".join(wrapper.wrap(txt)). -/
def wrapToWidth (measure : String → ℚ) (fontSize maxWidth : ℚ) (txt : String) : String :=
  String.intercalate "\n" (wrapToWidthLines measure fontSize maxWidth txt)

theorem wrapOuter_nil_chunks (width fuel : ℕ) (lines : List (List Char)) :
    wrapOuter width fuel [] lines = lines.reverse := by
  cases fuel <;> rfl

theorem flatten_dropLast_length_le :
    ∀ l : List (List Char), l.dropLast.flatten.length ≤ l.flatten.length := by
  intro l
  induction l with
  | nil => simp
  | cons a t ih =>
    cases t with
    | nil => simp
    | cons b t2 =>
      have h2 := ih
      simp only [List.flatten_cons, List.length_append] at h2
      simp only [List.dropLast_cons₂, List.flatten_cons, List.length_append]
      exact Nat.add_le_add_left h2 a.length

theorem dropTrailingWs_flatten_le (cur : List (List Char)) :
    (dropTrailingWs cur).flatten.length ≤ cur.flatten.length := by
  unfold dropTrailingWs
  split
  · split
    · exact flatten_dropLast_length_le cur
    · exact le_refl _
  · exact le_refl _

theorem fillLine_flatten_le (width : ℕ) :
    ∀ (chunks acc : List (List Char)), acc.flatten.length ≤ width →
      (fillLine width acc chunks).1.flatten.length ≤ width := by
  intro chunks
  induction chunks with
  | nil => intro acc hacc; exact hacc
  | cons c rest ih =>
    intro acc hacc
    rw [fillLine]
    split
    next h =>
      apply ih
      simp only [List.flatten_append, List.flatten_cons, List.flatten_nil,
        List.append_nil, List.length_append]
      exact h
    next h => exact hacc

theorem longWordAdjust_flatten_le (width : ℕ) (hw : 1 ≤ width)
    (cur rem : List (List Char)) (hcur : cur.flatten.length ≤ width) :
    (longWordAdjust width cur rem).1.flatten.length ≤ width := by
  cases rem with
  | nil => exact hcur
  | cons c r =>
    rw [longWordAdjust]
    split
    · have hnl : ¬ width < 1 := not_lt.mpr hw
      simp only [hnl, if_false, List.flatten_append, List.flatten_cons,
        List.flatten_nil, List.length_append, List.append_nil, List.length_take]
      omega
    · exact hcur

theorem wrapOuter_lines_le (width : ℕ) (hw : 1 ≤ width) :
    ∀ (fuel : ℕ) (chunks lines : List (List Char)),
      (∀ l ∈ lines, l.length ≤ width) →
      ∀ l ∈ wrapOuter width fuel chunks lines, l.length ≤ width := by
  intro fuel
  induction fuel with
  | zero =>
    intro chunks lines hl l hml
    rw [wrapOuter] at hml
    exact hl l (List.mem_reverse.mp hml)
  | succ fuel ih =>
    intro chunks lines hl l hml
    cases chunks with
    | nil =>
      rw [wrapOuter] at hml
      exact hl l (List.mem_reverse.mp hml)
    | cons c0 rest0 =>
      simp only [wrapOuter] at hml
      refine ih _ _ ?_ l hml
      intro l' hl'
      by_cases hemp : (dropTrailingWs (longWordAdjust width
          (fillLine width []
            (if c0.all pyIsSpace && !lines.isEmpty then rest0 else c0 :: rest0)).1
          (fillLine width []
            (if c0.all pyIsSpace && !lines.isEmpty then rest0 else c0 :: rest0)).2).1).isEmpty
      · rw [if_pos hemp] at hl'
        exact hl l' hl'
      · rw [if_neg hemp] at hl'
        rcases List.mem_cons.mp hl' with h | h
        · subst h
          calc (dropTrailingWs (longWordAdjust width
                  (fillLine width [] _).1 (fillLine width [] _).2).1).flatten.length
              ≤ (longWordAdjust width (fillLine width [] _).1
                  (fillLine width [] _).2).1.flatten.length := dropTrailingWs_flatten_le _
          _ ≤ width := longWordAdjust_flatten_le width hw _ _
                (fillLine_flatten_le width _ [] (by simp))
        · exact hl l' h

theorem chunkRuns_all_nonspace :
    ∀ (l : List Char), l ≠ [] → (∀ ch ∈ l, pyIsSpace ch = false) →
      chunkRuns l = [l] := by
  intro l
  induction l with
  | nil => intro hne _; exact absurd rfl hne
  | cons ch rest ih =>
    intro _ h
    cases rest with
    | nil => rfl
    | cons d rest2 =>
      have hr : chunkRuns (d :: rest2) = [d :: rest2] :=
        ih (by simp) (fun x hx => h x (List.mem_cons_of_mem _ hx))
      have hch : pyIsSpace ch = false := h ch (List.mem_cons_self _ _)
      have hd : pyIsSpace d = false := h d (by simp)
      rw [chunkRuns, hr]
      simp [hch, hd]

theorem wrapOuter_single_flatten (width : ℕ) (hw : 1 ≤ width) :
    ∀ (fuel : ℕ) (c : List Char) (lines : List (List Char)),
      c ≠ [] → (∀ ch ∈ c, pyIsSpace ch = false) → c.length ≤ fuel →
      (wrapOuter width fuel [c] lines).flatten = lines.reverse.flatten ++ c := by
  intro fuel
  induction fuel with
  | zero =>
    intro c lines hne hns hlen
    exact absurd (List.eq_nil_of_length_eq_zero (Nat.le_zero.mp hlen)) hne
  | succ fuel ih =>
    intro c lines hne hns hlen
    obtain ⟨ch, ctail, rfl⟩ := List.exists_cons_of_ne_nil hne
    have hall : (ch :: ctail).all pyIsSpace = false := by
      simp [List.all_cons, hns ch (by simp)]
    simp only [wrapOuter]
    rw [if_neg (by simp [hall])]
    by_cases hfit : (ch :: ctail).length ≤ width
    · have hfill : fillLine width [] [ch :: ctail] = ([ch :: ctail], []) := by
        rw [fillLine, if_pos (by simpa using hfit), fillLine]
        simp
      rw [hfill]
      have hlwa : longWordAdjust width [ch :: ctail] ([] : List (List Char))
          = ([ch :: ctail], []) := rfl
      rw [hlwa]
      have hdrop : dropTrailingWs [ch :: ctail] = [ch :: ctail] := by
        unfold dropTrailingWs
        simp [hall]
      rw [hdrop]
      rw [if_neg (by simp)]
      rw [wrapOuter_nil_chunks]
      simp
    · push_neg at hfit
      have hnl : ¬ width < 1 := not_lt.mpr hw
      have hfill : fillLine width [] [ch :: ctail] = ([], [ch :: ctail]) := by
        rw [fillLine, if_neg (by simpa using not_le.mpr hfit)]
      rw [hfill]
      have hlwa : longWordAdjust width ([] : List (List Char)) [ch :: ctail]
          = ([(ch :: ctail).take width], [(ch :: ctail).drop width]) := by
        rw [longWordAdjust, if_pos hfit]
        simp [hnl]
      rw [hlwa]
      have htne : (ch :: ctail).take width ≠ [] := by
        cases width with
        | zero => exact absurd hw (by omega)
        | succ w => simp [List.take_cons]
      have htall : ((ch :: ctail).take width).all pyIsSpace = false := by
        obtain ⟨x, xs, hx⟩ := List.exists_cons_of_ne_nil htne
        have hxmem : x ∈ (ch :: ctail).take width := by rw [hx]; simp
        have : pyIsSpace x = false :=
          hns x ((List.take_sublist _ _).subset hxmem)
        rw [hx]
        simp [List.all_cons, this]
      have hdrop : dropTrailingWs [(ch :: ctail).take width]
          = [(ch :: ctail).take width] := by
        unfold dropTrailingWs
        simp [htall]
      rw [hdrop]
      rw [if_neg (by simp [htne])]
      simp only [List.flatten_cons, List.flatten_nil, List.append_nil]
      have hlen2 : width < ctail.length + 1 := by
        simpa using hfit
      have hdne : (ch :: ctail).drop width ≠ [] := by
        refine List.length_pos.mp ?_
        rw [List.length_drop]
        simp only [List.length_cons]
        omega
      have hdns : ∀ x ∈ (ch :: ctail).drop width, pyIsSpace x = false :=
        fun x hx => hns x ((List.drop_sublist _ _).subset hx)
      have hdlen : ((ch :: ctail).drop width).length ≤ fuel := by
        rw [List.length_drop]
        simp only [List.length_cons]
        have hlen3 : ctail.length + 1 ≤ fuel + 1 := by simpa using hlen
        omega
      rw [ih _ _ hdne hdns hdlen]
      rw [List.reverse_cons, List.flatten_append]
      simp [List.append_assoc]

theorem widthChars_mul_le (c maxWidth : ℚ) (hc : 0 < c) (hcm : c ≤ maxWidth) :
    c * ((max 1 (pyInt (maxWidth / max c 1)).toNat : ℕ) : ℚ) ≤ maxWidth := by
  have hq0 : 0 ≤ maxWidth / max c 1 :=
    div_nonneg (le_trans hc.le hcm) (le_trans zero_le_one (le_max_right _ _))
  have hpy : pyInt (maxWidth / max c 1) = ⌊maxWidth / max c 1⌋ := by
    unfold pyInt
    rw [if_neg (not_lt.mpr hq0)]
  rcases le_or_lt 1 c with h1 | h1
  · rw [max_eq_left h1] at hpy ⊢
    have hqge : (1 : ℚ) ≤ maxWidth / c := (one_le_div hc).mpr hcm
    have hfl : (1 : ℤ) ≤ ⌊maxWidth / c⌋ := Int.le_floor.mpr (by exact_mod_cast hqge)
    have htn : (1 : ℕ) ≤ (⌊maxWidth / c⌋).toNat := by omega
    rw [hpy, max_eq_right htn]
    have hcast : (((⌊maxWidth / c⌋).toNat : ℕ) : ℚ) = ((⌊maxWidth / c⌋ : ℤ) : ℚ) := by
      exact_mod_cast Int.toNat_of_nonneg (by omega : (0 : ℤ) ≤ ⌊maxWidth / c⌋)
    rw [hcast]
    calc c * ((⌊maxWidth / c⌋ : ℤ) : ℚ)
        ≤ c * (maxWidth / c) := mul_le_mul_of_nonneg_left (Int.floor_le _) hc.le
    _ = maxWidth := by field_simp
  · rw [max_eq_right h1.le] at hpy ⊢
    rw [div_one] at hpy ⊢
    rcases le_or_lt 1 maxWidth with hm1 | hm1
    · have hfl : (1 : ℤ) ≤ ⌊maxWidth⌋ := Int.le_floor.mpr (by exact_mod_cast hm1)
      have htn : (1 : ℕ) ≤ (⌊maxWidth⌋).toNat := by omega
      rw [hpy, max_eq_right htn]
      have hcast : (((⌊maxWidth⌋).toNat : ℕ) : ℚ) = ((⌊maxWidth⌋ : ℤ) : ℚ) := by
        exact_mod_cast Int.toNat_of_nonneg (by omega : (0 : ℤ) ≤ ⌊maxWidth⌋)
      rw [hcast]
      have hflnn : (0 : ℚ) ≤ ((⌊maxWidth⌋ : ℤ) : ℚ) := by exact_mod_cast (by omega : (0:ℤ) ≤ ⌊maxWidth⌋)
      calc c * ((⌊maxWidth⌋ : ℤ) : ℚ)
          ≤ 1 * ((⌊maxWidth⌋ : ℤ) : ℚ) := mul_le_mul_of_nonneg_right h1.le hflnn
      _ = ((⌊maxWidth⌋ : ℤ) : ℚ) := one_mul _
      _ ≤ maxWidth := Int.floor_le _
    · have hfl0 : ⌊maxWidth⌋ < 1 := Int.floor_lt.mpr (by exact_mod_cast hm1)
      have htn : (⌊maxWidth⌋).toNat = 0 := by omega
      rw [hpy, htn]
      simp only [Nat.cast_ofNat, max_eq_left (Nat.zero_le 1), Nat.cast_one, mul_one]
      exact hcm

/-- C6 counterexample: with a monospace measure of ten pixels per character
and budget 100, a single unbreakable 40-character token measures 400 pixels,
wider than the budget, yet the wrap does not leave it unbroken: textwrap is
configured with break_long_words=True and splits it. -/
theorem wrap_long_token_cex :
    (∀ ch ∈ (String.mk (List.replicate 40 'A')).data, pyIsSpace ch = false) ∧
      (100 : ℚ) < 10 * (((String.mk (List.replicate 40 'A')).length : ℕ) : ℚ) ∧
      wrapToWidth (fun s => 10 * ((s.length : ℕ) : ℚ)) 70 100
          (String.mk (List.replicate 40 'A'))
        ≠ String.mk (List.replicate 40 'A') := by
  refine ⟨by decide, by norm_num [String.length], by decide⟩

/-- C6 (amended): under a monospace measure whose positive character width is
at most the budget, every line produced by the width wrap measures at most
the budget, including the pieces of an over-wide token, because with
break_long_words=True such a token is broken at the estimated character
column rather than left unbroken; nothing is truncated: for a single
unbreakable token the produced lines concatenate back to the token. -/
theorem wrap_monospace_bound (c fontSize maxWidth : ℚ) (txt : String)
    (hc : 0 < c) (hcm : c ≤ maxWidth) :
    (∀ line ∈ wrapToWidthLines (fun s => c * ((s.length : ℕ) : ℚ)) fontSize maxWidth txt,
        c * ((line.length : ℕ) : ℚ) ≤ maxWidth) ∧
      ((∀ ch ∈ txt.data, pyIsSpace ch = false) →
        ((wrapToWidthLines (fun s => c * ((s.length : ℕ) : ℚ)) fontSize maxWidth txt).map
            String.data).flatten = txt.data) := by
  unfold wrapToWidthLines
  by_cases hfits : (fun s : String => c * ((s.length : ℕ) : ℚ)) txt ≤ maxWidth
  · rw [if_pos hfits]
    constructor
    · intro line hline
      rw [List.mem_singleton] at hline
      subst hline
      exact hfits
    · intro _
      simp
  · rw [if_neg hfits]
    have hwc : wrapWidthChars (fun s => c * ((s.length : ℕ) : ℚ)) fontSize maxWidth
        = max 1 (pyInt (maxWidth / max c 1)).toNat := by
      unfold wrapWidthChars
      have ha : ("a" : String).length = 1 := rfl
      simp only [ha, Nat.cast_one, mul_one]
      rw [if_neg hc.ne']
    have hw1 : 1 ≤ wrapWidthChars (fun s => c * ((s.length : ℕ) : ℚ)) fontSize maxWidth :=
      le_max_left 1 _
    constructor
    · intro line hline
      unfold textwrapWrap at hline
      obtain ⟨l, hlmem, rfl⟩ := List.mem_map.mp hline
      have hlen : l.length ≤ wrapWidthChars (fun s => c * ((s.length : ℕ) : ℚ)) fontSize maxWidth :=
        wrapOuter_lines_le _ hw1 _ _ [] (by simp) l hlmem
      have hlenq : (((String.mk l).length : ℕ) : ℚ)
          ≤ ((wrapWidthChars (fun s => c * ((s.length : ℕ) : ℚ)) fontSize maxWidth : ℕ) : ℚ) := by
        exact_mod_cast hlen
      calc c * (((String.mk l).length : ℕ) : ℚ)
          ≤ c * ((wrapWidthChars (fun s => c * ((s.length : ℕ) : ℚ)) fontSize maxWidth : ℕ) : ℚ) :=
            mul_le_mul_of_nonneg_left hlenq hc.le
      _ ≤ maxWidth := by
            rw [hwc]
            exact widthChars_mul_le c maxWidth hc hcm
    · intro hns
      have hne : txt.data ≠ [] := by
        intro h0
        apply hfits
        have : (txt.length : ℚ) = 0 := by
          simp [String.length, h0]
        simp only [this, mul_zero]
        exact le_trans hc.le hcm
      have hchunks : chunkRuns txt.data = [txt.data] :=
        chunkRuns_all_nonspace _ hne hns
      unfold textwrapWrap
      rw [hchunks, List.map_map]
      have hid : (String.data ∘ String.mk) = id := funext (fun _ => rfl)
      rw [hid, List.map_id]
      rw [wrapOuter_single_flatten _ hw1 _ _ _ hne hns (by omega)]
      simp

/-- Witness for C6 at character width 10, budget 100 and a 40-character
unbreakable token. -/
theorem wrap_monospace_bound_witness :
    (0 : ℚ) < 10 ∧ (10 : ℚ) ≤ 100 ∧
      ((∀ line ∈ wrapToWidthLines (fun s => 10 * ((s.length : ℕ) : ℚ)) 70 100
            (String.mk (List.replicate 40 'A')),
          10 * ((line.length : ℕ) : ℚ) ≤ 100) ∧
        ((∀ ch ∈ (String.mk (List.replicate 40 'A')).data, pyIsSpace ch = false) →
          ((wrapToWidthLines (fun s => 10 * ((s.length : ℕ) : ℚ)) 70 100
              (String.mk (List.replicate 40 'A'))).map String.data).flatten
            = (String.mk (List.replicate 40 'A')).data)) :=
  ⟨by norm_num, by norm_num,
    wrap_monospace_bound 10 70 100 (String.mk (List.replicate 40 'A'))
      (by norm_num) (by norm_num)⟩

/-- Helper facts about the typing duration shared by the scene builders. -/
theorem typingDivisor_pos (speed : ℚ) : 0 < typingDivisor speed :=
  lt_of_lt_of_le (by norm_num) (le_max_right _ _)

theorem typingDuration_nonneg (text : String) (speed : ℚ) :
    0 ≤ typingDuration text speed :=
  div_nonneg (by positivity) (typingDivisor_pos speed).le

/-- Python str.upper for the ASCII texts this pipeline handles, applied to
the explanation at reelgen.py line 278. -/
def pyUpper (s : String) : String :=
  String.mk (s.data.map Char.toUpper)

/-- One full-screen countdown digit layer: its displayed value, start time
and one-second duration (reelgen.py 322-324). -/
structure CountdownLayer where
  value : ℕ
  start : ℚ
  duration : ℚ
  deriving Repr, DecidableEq

/-- A line hold layer of the puzzle scene: start time, clipped duration and
the anomaly flag (reelgen.py 305-308 and 352-358). -/
structure HoldLayer where
  start : ℚ
  duration : ℚ
  isAnomaly : Bool
  deriving Repr, DecidableEq

/-- A plain static hold layer (title hold, explanation hold, sign-off
holds). -/
structure PlainHold where
  start : ℚ
  duration : ℚ
  deriving Repr, DecidableEq

/-- Entry collected in the holds list of build_puzzle_clip (reelgen.py
305-308): the hold start time anim.end and the flag i == index_of_anomaly.
The raster fields img, size, anchor and pos_y are pixel data and omitted. -/
structure LineEntry where
  start : ℚ
  isAnomaly : Bool
  deriving Repr, DecidableEq

/-- Result of the line typing loop of build_puzzle_clip: the produced clips,
the hold entries, the collected end times and the final value of
current_time. -/
structure TypeLinesResult where
  anims : List TypingClip
  entries : List LineEntry
  ends : List ℚ
  fin : ℚ
  deriving Repr, DecidableEq

/-- The line typing loop of build_puzzle_clip (reelgen.py 296-311): chain the
line clips by their true end times, collecting hold entries and end times;
a line whose text is empty produces no clip and leaves current_time alone. -/
def typeLines (speed : ℚ) (k : ℕ) : ℕ → ℚ → List String → TypeLinesResult
  | _, current, [] => { anims := [], entries := [], ends := [], fin := current }
  | i, current, txt :: rest =>
    match createTypingClip txt current speed with
    | none => typeLines speed k (i + 1) current rest
    | some anim =>
      let r := typeLines speed k (i + 1) anim.endTime rest
      { anims := anim :: r.anims
        entries := { start := anim.endTime, isAnomaly := i == k } :: r.entries
        ends := anim.endTime :: r.ends
        fin := r.fin }

/-- Timing content of the composite clip returned by build_puzzle_clip. -/
structure PuzzleTimeline where
  titleAnim : TypingClip
  lineAnims : List TypingClip
  lineEnds : List ℚ
  lastLineEnd : ℚ
  countdownStart : ℚ
  revealStart : ℚ
  countdown : List CountdownLayer
  explAnim : Option TypingClip
  explHold : Option PlainHold
  titleHold : PlainHold
  lineHolds : List HoldLayer
  totalDuration : ℚ
  deriving Repr, DecidableEq

/-- build_puzzle_clip (reelgen.py 264-362) at the timing level: title typing
from t = 0.2, chained line typing, countdown, explanation typing and hold,
title hold until reveal, and the per-line holds with the anomaly policy.
Font measurement is abstracted as the measure argument (pixel width of a
string at a font size); raster composition and screen positions are omitted.
Returns none when the title clip could not be created, where the python
raises RuntimeError (line 288). -/
def buildPuzzleClip (cfg : VideoConfig) (measure : ℚ → String → ℚ)
    (lines : List String) (indexOfAnomaly : ℕ) (explanation : String)
    (title : String) : Option PuzzleTimeline :=
  match createTypingClip
      (wrapToWidth (measure cfg.TITLE_FONT_SIZE) cfg.TITLE_FONT_SIZE
        cfg.MAX_TEXT_WIDTH_PX title)
      (1/5) cfg.TITLE_TYPING_SPEED_CPS with
  | none => none
  | some titleAnim =>
    let wrappedLines := lines.map (fun l =>
      wrapToWidth (measure cfg.PUZZLE_LINE_FONT_SIZE) cfg.PUZZLE_LINE_FONT_SIZE
        cfg.MAX_TEXT_WIDTH_PX l)
    let r := typeLines cfg.PUZZLE_TYPING_SPEED_CPS indexOfAnomaly 0
      titleAnim.endTime wrappedLines
    let lastLineEnd := match r.ends.max? with
      | some m => m
      | none => r.fin
    let countdownStart := lastLineEnd + cfg.PRE_COUNTDOWN_PAUSE_S
    let revealStart := countdownStart + (cfg.COUNTDOWN_SECONDS : ℚ)
    -- for i, sec in enumerate(range(N, 0, -1)): the i-th digit shows N - i
    let countdown := (List.range cfg.COUNTDOWN_SECONDS).map (fun i =>
      { value := cfg.COUNTDOWN_SECONDS - i, start := countdownStart + (i : ℚ),
        duration := 1 : CountdownLayer })
    let explRes := createTypingClip
      (wrapToWidth (measure cfg.EXPLANATION_FONT_SIZE) cfg.EXPLANATION_FONT_SIZE
        cfg.MAX_TEXT_WIDTH_PX (pyUpper explanation))
      (revealStart + cfg.REVEAL_TO_EXPLANATION_DELAY_S)
      cfg.EXPLANATION_TYPING_SPEED_CPS
    let totalDuration := match explRes with
      | none => revealStart
      | some e => e.endTime + cfg.EXPLANATION_HOLD_DURATION_S
    let lineHolds := r.entries.filterMap (fun h =>
      let holdEnd := if h.isAnomaly then totalDuration else revealStart
      let holdDur := max 0 (holdEnd - h.start)
      if 0 < holdDur then
        some ({ start := h.start, duration := holdDur,
                isAnomaly := h.isAnomaly } : HoldLayer)
      else none)
    some { titleAnim := titleAnim
           lineAnims := r.anims
           lineEnds := r.ends
           lastLineEnd := lastLineEnd
           countdownStart := countdownStart
           revealStart := revealStart
           countdown := countdown
           explAnim := explRes
           explHold := explRes.map (fun e =>
             { start := e.endTime,
               duration := cfg.EXPLANATION_HOLD_DURATION_S : PlainHold })
           titleHold := { start := titleAnim.endTime,
                          duration := max 0 (revealStart - titleAnim.endTime) }
           lineHolds := lineHolds
           totalDuration := totalDuration }

/-- Timing content of the composite clip returned by build_signoff_clip. -/
structure SignoffTimeline where
  anims : List TypingClip
  holds : List PlainHold
  totalDuration : ℚ
  deriving Repr, DecidableEq

/-- The sign-off typing loop (reelgen.py 220-240): each produced clip starts
at the running clock, which then advances to the clip end plus the gap;
lines with empty text are skipped without advancing the clock.  Returns the
produced clips and the final clock value. -/
def signoffLoop (cfg : VideoConfig) : ℚ → List (String × ℤ) → List TypingClip × ℚ
  | current, [] => ([], current)
  | current, (text, _) :: rest =>
    match createTypingClip text current cfg.SIGNOFF_TYPING_SPEED_CPS with
    | none => signoffLoop cfg current rest
    | some anim =>
      let r := signoffLoop cfg (anim.endTime + cfg.SIGNOFF_GAP_S) rest
      (anim :: r.1, r.2)

/-- build_signoff_clip (reelgen.py 209-259) at the timing level: the typed
lines, the per-line holds running from each line end to the scene end, and
total_duration = current_time + hold_tail.  Returns none when no line was
typed. -/
def buildSignoffClip (cfg : VideoConfig) : Option SignoffTimeline :=
  if (signoffLoop cfg 0 cfg.SIGNOFF_LINES).1 = [] then none
  else
    some { anims := (signoffLoop cfg 0 cfg.SIGNOFF_LINES).1
           holds := (signoffLoop cfg 0 cfg.SIGNOFF_LINES).1.map (fun a =>
             { start := a.endTime,
               duration := max 0 ((signoffLoop cfg 0 cfg.SIGNOFF_LINES).2
                 + cfg.SIGNOFF_HOLD_DURATION_S - a.endTime) : PlainHold })
           totalDuration := (signoffLoop cfg 0 cfg.SIGNOFF_LINES).2
             + cfg.SIGNOFF_HOLD_DURATION_S }

/-- The anomaly index lookup of process_job (reelgen.py 389-392):
lines.index(text) with the ValueError recovered as index 0. -/
def computeAnomalyIndex (lines : List String) (anomalyText : String) : ℕ :=
  match lines.findIdx? (fun l => l == anomalyText) with
  | some i => i
  | none => 0

theorem createTypingClip_eq_some {text : String} {startDelay speed : ℚ}
    {anim : TypingClip} (h : createTypingClip text startDelay speed = some anim) :
    anim = { start := startDelay, duration := typingDuration text speed } := by
  unfold createTypingClip at h
  split at h
  · cases h
  · exact ((Option.some.injEq _ _).mp h).symm

theorem endTime_ge_start {text : String} {startDelay speed : ℚ} {anim : TypingClip}
    (h : createTypingClip text startDelay speed = some anim) :
    startDelay ≤ anim.endTime := by
  rw [createTypingClip_eq_some h]
  show startDelay ≤ startDelay + typingDuration text speed
  linarith [typingDuration_nonneg text speed]

theorem typeLines_props (speed : ℚ) (k : ℕ) :
    ∀ (ls : List String) (i : ℕ) (current : ℚ),
      ((typeLines speed k i current ls).ends
          = (typeLines speed k i current ls).anims.map TypingClip.endTime) ∧
        current ≤ (typeLines speed k i current ls).fin ∧
        (∀ e ∈ (typeLines speed k i current ls).ends,
          current ≤ e ∧ e ≤ (typeLines speed k i current ls).fin) ∧
        ((typeLines speed k i current ls).anims = [] →
          (typeLines speed k i current ls).fin = current) ∧
        ((typeLines speed k i current ls).anims ≠ [] →
          (typeLines speed k i current ls).ends.getLast?
            = some (typeLines speed k i current ls).fin) := by
  intro ls
  induction ls with
  | nil =>
    intro i current
    refine ⟨rfl, le_refl _, ?_, fun _ => rfl, fun h => absurd rfl h⟩
    intro e he
    simp [typeLines] at he
  | cons txt rest ih =>
    intro i current
    cases hm : createTypingClip txt current speed with
    | none =>
      simp only [typeLines, hm]
      exact ih (i + 1) current
    | some anim =>
      have hstep : current ≤ anim.endTime := endTime_ge_start hm
      obtain ⟨hE, hA, hC, hG, hD⟩ := ih (i + 1) anim.endTime
      simp only [typeLines, hm]
      refine ⟨?_, le_trans hstep hA, ?_, ?_, ?_⟩
      · simp only [List.map_cons]
        rw [hE]
      · intro e he
        rcases List.mem_cons.mp he with rfl | hmem
        · exact ⟨hstep, hA⟩
        · obtain ⟨h1, h2⟩ := hC e hmem
          exact ⟨le_trans hstep h1, h2⟩
      · intro h
        cases h
      · intro _
        cases hrends : (typeLines speed k (i + 1) anim.endTime rest).ends with
        | nil =>
          have hranil : (typeLines speed k (i + 1) anim.endTime rest).anims = [] := by
            have h0 := hE
            rw [hrends] at h0
            exact List.map_eq_nil_iff.mp h0.symm
          have hfin := hG hranil
          simp [hrends, hfin]
        | cons d ds =>
          have hrne : (typeLines speed k (i + 1) anim.endTime rest).anims ≠ [] := by
            intro h0
            rw [h0] at hE
            simp only [List.map_nil] at hE
            rw [hE] at hrends
            cases hrends
          rw [List.getLast?_cons_cons, ← hrends]
          exact hD hrne

theorem max?_eq_some_of_mem_of_le {l : List ℚ} {m : ℚ}
    (hmem : m ∈ l) (hle : ∀ e ∈ l, e ≤ m) : l.max? = some m :=
  (@List.max?_eq_some_iff ℚ m _ _ ⟨fun h1 h2 => le_antisymm h1 h2⟩
    (fun a => le_refl a) (fun a b => max_choice a b)
    (fun _ _ _ => max_le_iff) l).mpr ⟨hmem, hle⟩

theorem max_pos_eq {x : ℚ} (h : 0 < max 0 x) : max 0 x = x := by
  rcases le_or_lt x 0 with h0 | h0
  · rw [max_eq_left h0] at h
    exact absurd h (lt_irrefl 0)
  · exact max_eq_right h0.le

/-- C1: in a puzzle scene built with anomaly index k, every line hold layer
that was created has positive duration (holds with non-positive computed
duration are omitted by the guard); the hold of the anomaly line ends
exactly at the total duration; the hold of every other line ends exactly at
reveal time; and the title hold also ends exactly at reveal time. -/
theorem puzzle_hold_layers_spec (cfg : VideoConfig) (measure : ℚ → String → ℚ)
    (lines : List String) (k : ℕ) (explanation title : String)
    (res : PuzzleTimeline)
    (hb : buildPuzzleClip cfg measure lines k explanation title = some res)
    (hpause : 0 ≤ cfg.PRE_COUNTDOWN_PAUSE_S) :
    (∀ h ∈ res.lineHolds,
        0 < h.duration ∧
          (h.isAnomaly = true → h.start + h.duration = res.totalDuration) ∧
          (h.isAnomaly = false → h.start + h.duration = res.revealStart)) ∧
      res.titleHold.start + res.titleHold.duration = res.revealStart := by
  unfold buildPuzzleClip at hb
  cases hm : createTypingClip
      (wrapToWidth (measure cfg.TITLE_FONT_SIZE) cfg.TITLE_FONT_SIZE
        cfg.MAX_TEXT_WIDTH_PX title) (1/5) cfg.TITLE_TYPING_SPEED_CPS with
  | none =>
    rw [hm] at hb
    simp at hb
  | some titleAnim =>
    rw [hm] at hb
    have hres := ((Option.some.injEq _ _).mp hb).symm
    subst hres
    dsimp only
    constructor
    · intro h hmem
      rw [List.mem_filterMap] at hmem
      obtain ⟨e, _hemem, hfe⟩ := hmem
      cases heA : e.isAnomaly with
      | true =>
        rw [heA] at hfe
        rw [if_pos rfl] at hfe
        split at hfe
        next hcond =>
          have hh := ((Option.some.injEq _ _).mp hfe).symm
          subst hh
          refine ⟨hcond, fun _ => ?_,
            fun hfalse => absurd hfalse (fun h0 => Bool.noConfusion h0)⟩
          dsimp only
          rw [max_pos_eq hcond]
          ring
        next => cases hfe
      | false =>
        rw [heA] at hfe
        rw [if_neg Bool.false_ne_true] at hfe
        split at hfe
        next hcond =>
          have hh := ((Option.some.injEq _ _).mp hfe).symm
          subst hh
          refine ⟨hcond, fun htrue => absurd htrue (fun h0 => Bool.noConfusion h0),
            fun _ => ?_⟩
          dsimp only
          rw [max_pos_eq hcond]
          ring
        next => cases hfe
    · obtain ⟨hE, hA, hC, hG, hD⟩ := typeLines_props cfg.PUZZLE_TYPING_SPEED_CPS k
        (lines.map fun l =>
          wrapToWidth (measure cfg.PUZZLE_LINE_FONT_SIZE) cfg.PUZZLE_LINE_FONT_SIZE
            cfg.MAX_TEXT_WIDTH_PX l)
        0 titleAnim.endTime
      have hle : titleAnim.endTime
          ≤ (match (typeLines cfg.PUZZLE_TYPING_SPEED_CPS k 0 titleAnim.endTime
              (lines.map fun l =>
                wrapToWidth (measure cfg.PUZZLE_LINE_FONT_SIZE)
                  cfg.PUZZLE_LINE_FONT_SIZE cfg.MAX_TEXT_WIDTH_PX l)).ends.max? with
            | some m => m
            | none => (typeLines cfg.PUZZLE_TYPING_SPEED_CPS k 0 titleAnim.endTime
                (lines.map fun l =>
                  wrapToWidth (measure cfg.PUZZLE_LINE_FONT_SIZE)
                    cfg.PUZZLE_LINE_FONT_SIZE cfg.MAX_TEXT_WIDTH_PX l)).fin) := by
        cases hml : (typeLines cfg.PUZZLE_TYPING_SPEED_CPS k 0 titleAnim.endTime
            (lines.map fun l =>
              wrapToWidth (measure cfg.PUZZLE_LINE_FONT_SIZE)
                cfg.PUZZLE_LINE_FONT_SIZE cfg.MAX_TEXT_WIDTH_PX l)).ends.max? with
        | none => exact hA
        | some m =>
          have hmm : m ∈ (typeLines cfg.PUZZLE_TYPING_SPEED_CPS k 0 titleAnim.endTime
              (lines.map fun l =>
                wrapToWidth (measure cfg.PUZZLE_LINE_FONT_SIZE)
                  cfg.PUZZLE_LINE_FONT_SIZE cfg.MAX_TEXT_WIDTH_PX l)).ends :=
            List.max?_mem (fun a b => max_choice a b) hml
          exact (hC m hmm).1
      have hrev : titleAnim.endTime
          ≤ (match (typeLines cfg.PUZZLE_TYPING_SPEED_CPS k 0 titleAnim.endTime
              (lines.map fun l =>
                wrapToWidth (measure cfg.PUZZLE_LINE_FONT_SIZE)
                  cfg.PUZZLE_LINE_FONT_SIZE cfg.MAX_TEXT_WIDTH_PX l)).ends.max? with
            | some m => m
            | none => (typeLines cfg.PUZZLE_TYPING_SPEED_CPS k 0 titleAnim.endTime
                (lines.map fun l =>
                  wrapToWidth (measure cfg.PUZZLE_LINE_FONT_SIZE)
                    cfg.PUZZLE_LINE_FONT_SIZE cfg.MAX_TEXT_WIDTH_PX l)).fin)
            + cfg.PRE_COUNTDOWN_PAUSE_S + (cfg.COUNTDOWN_SECONDS : ℚ) := by
        have hN : (0 : ℚ) ≤ (cfg.COUNTDOWN_SECONDS : ℚ) := Nat.cast_nonneg _
        linarith
      rw [max_eq_right (sub_nonneg.mpr hrev)]
      ring

/-- Monospace measure used by the concrete witnesses: ten pixels per
character at every font size. -/
def exMeasure : ℚ → String → ℚ :=
  fun _ s => 10 * ((s.length : ℕ) : ℚ)

/-- Fallback record used only to extract the concrete witness timeline. -/
def puzzleExampleDefault : PuzzleTimeline :=
  { titleAnim := ⟨0, 0⟩, lineAnims := [], lineEnds := [], lastLineEnd := 0,
    countdownStart := 0, revealStart := 0, countdown := [], explAnim := none,
    explHold := none, titleHold := ⟨0, 0⟩, lineHolds := [], totalDuration := 0 }

/-- The concrete scenario of the spec: three puzzle lines, anomaly index 1,
explanation and title, rendered with the repository configuration. -/
def puzzleExample : PuzzleTimeline :=
  (buildPuzzleClip videoConfig exMeasure ["2+2=4", "3+3=7", "5+5=10"] 1
    "SEVEN IS WRONG" "FIND THE ANOMALY").getD puzzleExampleDefault

/-- Witness for C1 at the concrete scenario. -/
theorem puzzle_hold_layers_spec_witness :
    buildPuzzleClip videoConfig exMeasure ["2+2=4", "3+3=7", "5+5=10"] 1
        "SEVEN IS WRONG" "FIND THE ANOMALY" = some puzzleExample ∧
      (0 : ℚ) ≤ videoConfig.PRE_COUNTDOWN_PAUSE_S ∧
      ((∀ h ∈ puzzleExample.lineHolds,
          0 < h.duration ∧
            (h.isAnomaly = true →
              h.start + h.duration = puzzleExample.totalDuration) ∧
            (h.isAnomaly = false →
              h.start + h.duration = puzzleExample.revealStart)) ∧
        puzzleExample.titleHold.start + puzzleExample.titleHold.duration
          = puzzleExample.revealStart) :=
  ⟨by decide, by decide,
    puzzle_hold_layers_spec videoConfig exMeasure ["2+2=4", "3+3=7", "5+5=10"] 1
      "SEVEN IS WRONG" "FIND THE ANOMALY" puzzleExample (by decide) (by decide)⟩

/-- C7: the countdown of a puzzle scene has exactly COUNTDOWN_SECONDS digit
layers; the countdown starts at the last line typing end plus the
pre-countdown pause; the i-th layer (zero based) shows the value N - i,
starts at countdown_start + i and lasts exactly one second. -/
theorem countdown_spec (cfg : VideoConfig) (measure : ℚ → String → ℚ)
    (lines : List String) (k : ℕ) (explanation title : String)
    (res : PuzzleTimeline)
    (hb : buildPuzzleClip cfg measure lines k explanation title = some res)
    (_hN : 1 ≤ cfg.COUNTDOWN_SECONDS) :
    res.countdown.length = cfg.COUNTDOWN_SECONDS ∧
      res.countdownStart = res.lastLineEnd + cfg.PRE_COUNTDOWN_PAUSE_S ∧
      (∀ (i : ℕ) (hi : i < res.countdown.length),
        (res.countdown.get ⟨i, hi⟩).value = cfg.COUNTDOWN_SECONDS - i ∧
          (res.countdown.get ⟨i, hi⟩).start = res.countdownStart + (i : ℚ) ∧
          (res.countdown.get ⟨i, hi⟩).duration = 1) ∧
      (∀ a, res.lineAnims.getLast? = some a → res.lastLineEnd = a.endTime) := by
  unfold buildPuzzleClip at hb
  cases hm : createTypingClip
      (wrapToWidth (measure cfg.TITLE_FONT_SIZE) cfg.TITLE_FONT_SIZE
        cfg.MAX_TEXT_WIDTH_PX title) (1/5) cfg.TITLE_TYPING_SPEED_CPS with
  | none =>
    rw [hm] at hb
    simp at hb
  | some titleAnim =>
    rw [hm] at hb
    have hres := ((Option.some.injEq _ _).mp hb).symm
    subst hres
    refine ⟨by simp, rfl, ?_, ?_⟩
    · intro i hi
      refine ⟨?_, ?_, ?_⟩ <;>
        simp [List.get_eq_getElem, List.getElem_map, List.getElem_range]
    · intro a ha
      obtain ⟨hE, _hA, hC, _hG, hD⟩ := typeLines_props cfg.PUZZLE_TYPING_SPEED_CPS k
        (List.map (fun l =>
          wrapToWidth (measure cfg.PUZZLE_LINE_FONT_SIZE) cfg.PUZZLE_LINE_FONT_SIZE
            cfg.MAX_TEXT_WIDTH_PX l) lines)
        0 titleAnim.endTime
      have hanne : (typeLines cfg.PUZZLE_TYPING_SPEED_CPS k 0 titleAnim.endTime
          (List.map (fun l =>
            wrapToWidth (measure cfg.PUZZLE_LINE_FONT_SIZE) cfg.PUZZLE_LINE_FONT_SIZE
              cfg.MAX_TEXT_WIDTH_PX l) lines)).anims ≠ [] := by
        intro h0
        rw [h0] at ha
        cases ha
      have hDl := hD hanne
      have h1 : (typeLines cfg.PUZZLE_TYPING_SPEED_CPS k 0 titleAnim.endTime
          (List.map (fun l =>
            wrapToWidth (measure cfg.PUZZLE_LINE_FONT_SIZE) cfg.PUZZLE_LINE_FONT_SIZE
              cfg.MAX_TEXT_WIDTH_PX l) lines)).ends.getLast? = some a.endTime := by
        rw [hE, List.getLast?_map, ha]
        rfl
      have hfin : (typeLines cfg.PUZZLE_TYPING_SPEED_CPS k 0 titleAnim.endTime
          (List.map (fun l =>
            wrapToWidth (measure cfg.PUZZLE_LINE_FONT_SIZE) cfg.PUZZLE_LINE_FONT_SIZE
              cfg.MAX_TEXT_WIDTH_PX l) lines)).fin = a.endTime := by
        rw [hDl] at h1
        exact (Option.some.injEq _ _).mp h1
      have hensne : (typeLines cfg.PUZZLE_TYPING_SPEED_CPS k 0 titleAnim.endTime
          (List.map (fun l =>
            wrapToWidth (measure cfg.PUZZLE_LINE_FONT_SIZE) cfg.PUZZLE_LINE_FONT_SIZE
              cfg.MAX_TEXT_WIDTH_PX l) lines)).ends ≠ [] := by
        intro h0
        rw [h0] at hDl
        cases hDl
      have hfinmem : (typeLines cfg.PUZZLE_TYPING_SPEED_CPS k 0 titleAnim.endTime
          (List.map (fun l =>
            wrapToWidth (measure cfg.PUZZLE_LINE_FONT_SIZE) cfg.PUZZLE_LINE_FONT_SIZE
              cfg.MAX_TEXT_WIDTH_PX l) lines)).fin
          ∈ (typeLines cfg.PUZZLE_TYPING_SPEED_CPS k 0 titleAnim.endTime
            (List.map (fun l =>
              wrapToWidth (measure cfg.PUZZLE_LINE_FONT_SIZE) cfg.PUZZLE_LINE_FONT_SIZE
                cfg.MAX_TEXT_WIDTH_PX l) lines)).ends := by
        have h2 := List.getLast?_eq_getLast_of_ne_nil hensne
        rw [hDl] at h2
        have h3 := (Option.some.injEq _ _).mp h2
        rw [h3]
        exact List.getLast_mem hensne
      have hml : (typeLines cfg.PUZZLE_TYPING_SPEED_CPS k 0 titleAnim.endTime
          (List.map (fun l =>
            wrapToWidth (measure cfg.PUZZLE_LINE_FONT_SIZE) cfg.PUZZLE_LINE_FONT_SIZE
              cfg.MAX_TEXT_WIDTH_PX l) lines)).ends.max?
          = some (typeLines cfg.PUZZLE_TYPING_SPEED_CPS k 0 titleAnim.endTime
            (List.map (fun l =>
              wrapToWidth (measure cfg.PUZZLE_LINE_FONT_SIZE) cfg.PUZZLE_LINE_FONT_SIZE
                cfg.MAX_TEXT_WIDTH_PX l) lines)).fin :=
        max?_eq_some_of_mem_of_le hfinmem (fun e he => (hC e he).2)
      show (match (typeLines cfg.PUZZLE_TYPING_SPEED_CPS k 0 titleAnim.endTime
          (List.map (fun l =>
            wrapToWidth (measure cfg.PUZZLE_LINE_FONT_SIZE) cfg.PUZZLE_LINE_FONT_SIZE
              cfg.MAX_TEXT_WIDTH_PX l) lines)).ends.max? with
        | some m => m
        | none => (typeLines cfg.PUZZLE_TYPING_SPEED_CPS k 0 titleAnim.endTime
            (List.map (fun l =>
              wrapToWidth (measure cfg.PUZZLE_LINE_FONT_SIZE) cfg.PUZZLE_LINE_FONT_SIZE
                cfg.MAX_TEXT_WIDTH_PX l) lines)).fin) = a.endTime
      rw [hml]
      exact hfin

/-- Witness for C7 at the concrete scenario. -/
theorem countdown_spec_witness :
    buildPuzzleClip videoConfig exMeasure ["2+2=4", "3+3=7", "5+5=10"] 1
        "SEVEN IS WRONG" "FIND THE ANOMALY" = some puzzleExample ∧
      1 ≤ videoConfig.COUNTDOWN_SECONDS ∧
      (puzzleExample.countdown.length = videoConfig.COUNTDOWN_SECONDS ∧
        puzzleExample.countdownStart
          = puzzleExample.lastLineEnd + videoConfig.PRE_COUNTDOWN_PAUSE_S ∧
        (∀ (i : ℕ) (hi : i < puzzleExample.countdown.length),
          (puzzleExample.countdown.get ⟨i, hi⟩).value
              = videoConfig.COUNTDOWN_SECONDS - i ∧
            (puzzleExample.countdown.get ⟨i, hi⟩).start
              = puzzleExample.countdownStart + (i : ℚ) ∧
            (puzzleExample.countdown.get ⟨i, hi⟩).duration = 1) ∧
        (∀ a, puzzleExample.lineAnims.getLast? = some a →
          puzzleExample.lastLineEnd = a.endTime)) :=
  ⟨by decide, by decide,
    countdown_spec videoConfig exMeasure ["2+2=4", "3+3=7", "5+5=10"] 1
      "SEVEN IS WRONG" "FIND THE ANOMALY" puzzleExample (by decide) (by decide)⟩

/-- C9: when the designated anomaly text is not among the supplied lines, the
computed anomaly index falls back to 0 and the puzzle scene is still built
(given that the wrapped title is non-empty, which is the independent fatal
case of the builder). -/
theorem anomaly_fallback_spec (cfg : VideoConfig) (measure : ℚ → String → ℚ)
    (lines : List String) (anomalyText explanation title : String)
    (hnot : anomalyText ∉ lines)
    (htitle : wrapToWidth (measure cfg.TITLE_FONT_SIZE) cfg.TITLE_FONT_SIZE
        cfg.MAX_TEXT_WIDTH_PX title ≠ "") :
    computeAnomalyIndex lines anomalyText = 0 ∧
      (buildPuzzleClip cfg measure lines (computeAnomalyIndex lines anomalyText)
          explanation title).isSome := by
  have hidx : computeAnomalyIndex lines anomalyText = 0 := by
    unfold computeAnomalyIndex
    have hnone : lines.findIdx? (fun l => l == anomalyText) = none := by
      rw [List.findIdx?_eq_none_iff]
      intro x hx
      exact beq_eq_false_iff_ne.mpr (fun heq => hnot (heq ▸ hx))
    rw [hnone]
  refine ⟨hidx, ?_⟩
  unfold buildPuzzleClip
  cases hm : createTypingClip
      (wrapToWidth (measure cfg.TITLE_FONT_SIZE) cfg.TITLE_FONT_SIZE
        cfg.MAX_TEXT_WIDTH_PX title) (1/5) cfg.TITLE_TYPING_SPEED_CPS with
  | none =>
    exfalso
    unfold createTypingClip at hm
    rw [if_neg htitle] at hm
    cases hm
  | some titleAnim => rfl

/-- Witness for C9 at a concrete missing anomaly text. -/
theorem anomaly_fallback_spec_witness :
    ("MISSING" : String) ∉ (["2+2=4", "3+3=7"] : List String) ∧
      wrapToWidth (exMeasure videoConfig.TITLE_FONT_SIZE) videoConfig.TITLE_FONT_SIZE
          videoConfig.MAX_TEXT_WIDTH_PX "FIND THE ANOMALY" ≠ "" ∧
      (computeAnomalyIndex ["2+2=4", "3+3=7"] "MISSING" = 0 ∧
        (buildPuzzleClip videoConfig exMeasure ["2+2=4", "3+3=7"]
            (computeAnomalyIndex ["2+2=4", "3+3=7"] "MISSING")
            "" "FIND THE ANOMALY").isSome) :=
  ⟨by decide, by decide,
    anomaly_fallback_spec videoConfig exMeasure ["2+2=4", "3+3=7"] "MISSING"
      "" "FIND THE ANOMALY" (by decide) (by decide)⟩

theorem signoffLoop_props (cfg : VideoConfig) (hgap : 0 ≤ cfg.SIGNOFF_GAP_S) :
    ∀ (ls : List (String × ℤ)) (current : ℚ),
      List.Chain' (fun a b => b.start = a.endTime + cfg.SIGNOFF_GAP_S)
          (signoffLoop cfg current ls).1 ∧
        current ≤ (signoffLoop cfg current ls).2 ∧
        (∀ a ∈ (signoffLoop cfg current ls).1,
          a.endTime + cfg.SIGNOFF_GAP_S ≤ (signoffLoop cfg current ls).2) ∧
        (∀ a, (signoffLoop cfg current ls).1.getLast? = some a →
          (signoffLoop cfg current ls).2 = a.endTime + cfg.SIGNOFF_GAP_S) ∧
        (∀ a ∈ (signoffLoop cfg current ls).1.head?, a.start = current) ∧
        ((signoffLoop cfg current ls).1 = [] →
          (signoffLoop cfg current ls).2 = current) := by
  intro ls
  induction ls with
  | nil =>
    intro current
    refine ⟨List.chain'_nil, le_refl _, ?_, ?_, ?_, fun _ => rfl⟩
    · intro a ha
      simp [signoffLoop] at ha
    · intro a ha
      simp [signoffLoop] at ha
    · intro a ha
      simp [signoffLoop] at ha
  | cons p rest ih =>
    intro current
    obtain ⟨text, y⟩ := p
    cases hm : createTypingClip text current cfg.SIGNOFF_TYPING_SPEED_CPS with
    | none =>
      simp only [signoffLoop, hm]
      exact ih current
    | some anim =>
      have hstep : current ≤ anim.endTime := endTime_ge_start hm
      obtain ⟨ih1, ih2, ih3, ih4, ih5, ih6⟩ := ih (anim.endTime + cfg.SIGNOFF_GAP_S)
      simp only [signoffLoop, hm]
      refine ⟨?_, ?_, ?_, ?_, ?_, ?_⟩
      · rw [List.chain'_cons']
        exact ⟨fun b hb => ih5 b hb, ih1⟩
      · linarith
      · intro a ha
        rcases List.mem_cons.mp ha with rfl | hmem
        · exact ih2
        · exact ih3 a hmem
      · intro a ha
        cases hra : (signoffLoop cfg (anim.endTime + cfg.SIGNOFF_GAP_S) rest).1 with
        | nil =>
          rw [hra] at ha
          have haa := (Option.some.injEq _ _).mp ha
          rw [ih6 hra, ← haa]
          rfl
        | cons b bs =>
          rw [hra] at ha
          rw [List.getLast?_cons_cons] at ha
          exact ih4 a (by rw [hra]; exact ha)
      · intro a ha
        have haa := (Option.some.injEq _ _).mp ha
        rw [← haa, createTypingClip_eq_some hm]
      · intro h0
        cases h0


/-- C8 counterexample: with the repository configuration, the sign-off scene
total duration is not the last line typing finish plus the hold duration:
the loop adds the inter-line gap once more after the last line, so the shared
tail point carries an extra SIGNOFF_GAP_S. -/
theorem signoff_tail_cex :
    (buildSignoffClip videoConfig).map SignoffTimeline.totalDuration
      ≠ (buildSignoffClip videoConfig).map (fun r =>
          (r.anims.map TypingClip.endTime).getLast?.getD 0
            + videoConfig.SIGNOFF_HOLD_DURATION_S) := by
  decide

/-- C8 (amended): in the sign-off scene each typed line starts exactly when
the previous line finishes typing plus the fixed gap; every hold layer runs
from its line typing end to the shared tail point, which is the scene total
duration; and the total duration is the last line typing finish plus the gap
plus the fixed hold duration. -/
theorem signoff_chain_spec (cfg : VideoConfig) (res : SignoffTimeline)
    (hb : buildSignoffClip cfg = some res)
    (hgap : 0 ≤ cfg.SIGNOFF_GAP_S) (_hhold : 0 ≤ cfg.SIGNOFF_HOLD_DURATION_S) :
    List.Chain' (fun a b => b.start = a.endTime + cfg.SIGNOFF_GAP_S) res.anims ∧
      (∀ hld ∈ res.holds, hld.start + hld.duration = res.totalDuration) ∧
      (∀ a, res.anims.getLast? = some a →
        res.totalDuration
          = a.endTime + cfg.SIGNOFF_GAP_S + cfg.SIGNOFF_HOLD_DURATION_S) := by
  unfold buildSignoffClip at hb
  by_cases hemp : (signoffLoop cfg 0 cfg.SIGNOFF_LINES).1 = []
  · rw [if_pos hemp] at hb
    cases hb
  · rw [if_neg hemp] at hb
    have hres := ((Option.some.injEq _ _).mp hb).symm
    subst hres
    obtain ⟨hch, _hfin0, hmemle, hlastD, _hheadP, _hGnil⟩ :=
      signoffLoop_props cfg hgap cfg.SIGNOFF_LINES 0
    refine ⟨hch, ?_, ?_⟩
    · intro hld hmem
      rw [List.mem_map] at hmem
      obtain ⟨a, hamem, rfl⟩ := hmem
      dsimp only
      have hle2 : a.endTime ≤ (signoffLoop cfg 0 cfg.SIGNOFF_LINES).2
          + cfg.SIGNOFF_HOLD_DURATION_S := by
        have := hmemle a hamem
        linarith
      rw [max_eq_right (sub_nonneg.mpr hle2)]
      ring
    · intro a ha
      rw [hlastD a ha]

/-- The sign-off timeline of the repository configuration, used as concrete
witness. -/
def signoffExample : SignoffTimeline :=
  (buildSignoffClip videoConfig).getD { anims := [], holds := [], totalDuration := 0 }

/-- Witness for C8 at the repository configuration. -/
theorem signoff_chain_spec_witness :
    buildSignoffClip videoConfig = some signoffExample ∧
      (0 : ℚ) ≤ videoConfig.SIGNOFF_GAP_S ∧
      (0 : ℚ) ≤ videoConfig.SIGNOFF_HOLD_DURATION_S ∧
      (List.Chain' (fun a b => b.start = a.endTime + videoConfig.SIGNOFF_GAP_S)
          signoffExample.anims ∧
        (∀ hld ∈ signoffExample.holds,
          hld.start + hld.duration = signoffExample.totalDuration) ∧
        (∀ a, signoffExample.anims.getLast? = some a →
          signoffExample.totalDuration
            = a.endTime + videoConfig.SIGNOFF_GAP_S
              + videoConfig.SIGNOFF_HOLD_DURATION_S)) :=
  ⟨by decide, by decide, by decide,
    signoff_chain_spec videoConfig signoffExample (by decide) (by decide) (by decide)⟩

end Reelgen
